import Mathlib

/-!
Verification of the feed-forward classifier / checkpoint notebooks
(`part_4_fashion_mnist.ipynb`, `part_6_saving_and_loading_modules.ipynb`).

The notebooks build a multilayer perceptron (affine layers, ReLU hidden
activations, log-softmax output), train it with a manual SGD loop, and
save/load checkpoints as dictionaries holding `input_size`, `output_size`,
`hidden_layers` and `state_dict`.

Embedding choices:
* floating-point scalars are modelled as exact rationals `ℚ`; the
  log-softmax output layer, which involves the transcendental `exp`/`log`,
  is modelled over `ℝ`;
* tensors are nested lists; a weight of an `nn.Linear(nIn, nOut)` is a
  list of `nOut` rows of length `nIn`, its bias a list of length `nOut`;
* the `fc_model.Network` module used by `part_6` is not part of the
  sources (only its call sites are), so its constructor and forward pass
  are modelled from the spec (§4.1);
* the checkpoint dictionary, `load_checkpoint` and the training loops are
  embedded from the notebook cells; the external autodiff engine and
  data loader are abstracted as oracles, as the spec treats them as
  external collaborators.
-/

/-- Error taxonomy of the spec (§7). -/
inductive ModelError where
  | InvalidArchitecture
  | ArchitectureMismatch
  | NotFound
deriving DecidableEq

/-- An `nn.Linear` layer: a weight matrix (list of rows) and a bias vector. -/
structure Linear where
  weight : List (List ℚ)
  bias : List ℚ
deriving DecidableEq

/-- `out_features` of a linear layer: the number of weight rows. -/
def Linear.out_features (l : Linear) : ℕ := l.weight.length

/-- Well-formedness of a linear layer with `nIn` inputs and `nOut` outputs:
the shapes of weight and bias match and both dimensions are positive. -/
def Linear.WF (l : Linear) (nIn nOut : ℕ) : Prop :=
  l.weight.length = nOut ∧ l.bias.length = nOut ∧
    (∀ r ∈ l.weight, r.length = nIn) ∧ 0 < nIn ∧ 0 < nOut

/-- The feed-forward classifier: input/output dimensions, the hidden
`nn.Linear` modules (as in `fc_model.Network.hidden_layers`) and the
output `nn.Linear` module. -/
structure Network where
  input_size : ℕ
  output_size : ℕ
  hidden_layers : List Linear
  output : Linear
deriving DecidableEq

/-- A freshly constructed `nn.Linear(nIn, nOut)`; the random initial values
are irrelevant to every property below, so they are taken to be zero. -/
def mkLinear (nIn nOut : ℕ) : Linear :=
  ⟨List.replicate nOut (List.replicate nIn 0), List.replicate nOut 0⟩

/-- The chain of hidden `nn.Linear` layers: `nIn→h₁`, `h₁→h₂`, …. -/
def buildHidden : ℕ → List ℕ → List Linear
  | _, [] => []
  | nIn, h :: hs => mkLinear nIn h :: buildHidden h hs

/-- The width feeding the output layer: the last hidden width,
or the input size when there are no hidden layers. -/
def lastSize (inS : ℕ) (hs : List ℕ) : ℕ := hs.getLastD inS

/-- Modelled from the spec: `fc_model.Network(input_size, output_size,
hidden_layers)` — the module's source file is not among the sources, only
its call sites.  Per §4.1 it builds `k+1` affine layers
`input→h₁, …, h_k→output`; an empty hidden list is legal (§4.1 error
conditions) and a non-positive dimension fails with `InvalidArchitecture`. -/
def Network.init (input_size output_size : Int) (hidden : List Int) :
    Except ModelError Network :=
  if 0 < input_size ∧ 0 < output_size ∧ ∀ h ∈ hidden, 0 < h then
    let inS := input_size.toNat
    let hs := hidden.map Int.toNat
    .ok ⟨inS, output_size.toNat, buildHidden inS hs,
      mkLinear (lastSize inS hs) output_size.toNat⟩
  else .error .InvalidArchitecture

/-- A stored tensor: either a weight matrix or a bias vector. -/
inductive Tensor where
  | mat : List (List ℚ) → Tensor
  | vec : List ℚ → Tensor
deriving DecidableEq

/-- The shape of a stored tensor (`torch.Size`). -/
def Tensor.shape : Tensor → List ℕ
  | .mat m => [m.length, (m.headD []).length]
  | .vec v => [v.length]

/-- The `state_dict` entries contributed by `hidden_layers[i], …`:
qualified names `hidden_layers.i.weight` / `hidden_layers.i.bias` paired
with the current tensors, as in the recorded notebook output. -/
def sdAux : ℕ → List Linear → List (String × Tensor)
  | _, [] => []
  | i, l :: ls =>
    ("hidden_layers." ++ toString i ++ ".weight", .mat l.weight) ::
    ("hidden_layers." ++ toString i ++ ".bias", .vec l.bias) :: sdAux (i + 1) ls

/-- `model.state_dict()`: the ordered mapping from each parameter's
qualified name to its current contents. -/
def Network.state_dict (net : Network) : List (String × Tensor) :=
  sdAux 0 net.hidden_layers ++
    [("output.weight", .mat net.output.weight),
     ("output.bias", .vec net.output.bias)]

/-- The hidden widths of the live model:
`[each.out_features for each in model.hidden_layers]`. -/
def Network.hiddenSizes (net : Network) : List ℕ :=
  net.hidden_layers.map Linear.out_features

/-- Consume two tensors (`weight`, `bias`) per hidden layer, returning the
replaced layers and the remaining tensors. -/
def loadHidden : List Linear → List Tensor → List Linear × List Tensor
  | [], ts => ([], ts)
  | l :: ls, ts =>
    match ts with
    | .mat w :: .vec b :: ts' =>
      let p := loadHidden ls ts'
      (⟨w, b⟩ :: p.1, p.2)
    | _ => (l :: ls, ts)

/-- Overwrite every parameter of `net` with the given tensors, in
`state_dict` order. -/
def Network.withTensors (net : Network) (ts : List Tensor) : Network :=
  let p := loadHidden net.hidden_layers ts
  match p.2 with
  | [.mat w, .vec b] => { net with hidden_layers := p.1, output := ⟨w, b⟩ }
  | _ => { net with hidden_layers := p.1 }

/-- The shapes of all tensors of a state dict, in order. -/
def shapesOf (sd : List (String × Tensor)) : List (List ℕ) :=
  sd.map fun p => p.2.shape

/-- `model.load_state_dict(sd)`: copies each stored value into the
corresponding parameter by matching qualified name; fails with
`ArchitectureMismatch` when a stored parameter's shape does not match the
model's (the failure recorded in the notebook for the `[400, 200, 100]`
skeleton).  Since the qualified names are generated from the layer
positions, matching by name coincides with matching by position whenever
the key sequences agree, which the first check enforces. -/
def Network.load_state_dict (net : Network) (sd : List (String × Tensor)) :
    Except ModelError Network :=
  if sd.map Prod.fst = net.state_dict.map Prod.fst ∧
      shapesOf sd = shapesOf net.state_dict then
    .ok (net.withTensors (sd.map Prod.snd))
  else .error .ArchitectureMismatch

/-- A value stored in the checkpoint dictionary: an integer, a list of
integers, or a state dict. -/
inductive CValue where
  | int : ℕ → CValue
  | ints : List ℕ → CValue
  | sd : List (String × Tensor) → CValue
deriving DecidableEq

/-- The checkpoint written by the notebook's save cell:
`{'input_size': …, 'output_size': …, 'hidden_layers':
[each.out_features for each in model.hidden_layers], 'state_dict':
model.state_dict()}`, with the two size constants generalized to the
model's own sizes per spec §4.3 (`save(model, destination)` writes the
model's `input_size` and `output_size`; in the notebook they are the
literals 784 and 10, which are exactly the saved model's sizes). -/
def checkpointOf (net : Network) : List (String × CValue) :=
  [("input_size", .int net.input_size),
   ("output_size", .int net.output_size),
   ("hidden_layers", .ints net.hiddenSizes),
   ("state_dict", .sd net.state_dict)]

/-- `load_checkpoint(filepath)` from the notebook: read the record,
construct a `fc_model.Network` from the stored sizes, then load the stored
state dict into it. -/
def load_checkpoint (cp : List (String × CValue)) : Except ModelError Network :=
  match cp.lookup "input_size", cp.lookup "output_size",
      cp.lookup "hidden_layers", cp.lookup "state_dict" with
  | some (.int inS), some (.int outS), some (.ints hs), some (.sd sd) => do
    let model ← Network.init (inS : Int) (outS : Int) (hs.map Int.ofNat)
    model.load_state_dict sd
  | _, _, _, _ => .error .NotFound

/-- Well-formedness of the hidden chain starting at width `nIn`:
each layer is well-formed and consecutive widths match. -/
def hiddenWF : ℕ → List Linear → Prop
  | _, [] => True
  | nIn, l :: ls => l.WF nIn l.out_features ∧ hiddenWF l.out_features ls

/-- A valid model (§3 Model invariant): positive dimensions and
consecutive layer dimensions matching through to the output layer. -/
def Network.WF (net : Network) : Prop :=
  0 < net.input_size ∧ 0 < net.output_size ∧
    hiddenWF net.input_size net.hidden_layers ∧
    net.output.WF (lastSize net.input_size net.hiddenSizes) net.output_size

/-- Elementwise rectified-linear activation `max(0, x)` (§4.1). -/
def relu (x : ℚ) : ℚ := max 0 x

/-- Dot product of two vectors of equal length. -/
def dot (xs ys : List ℚ) : ℚ := (List.zipWith (· * ·) xs ys).sum

/-- Apply an affine layer to one example: `W·x + b`, one output per row. -/
def Linear.apply (l : Linear) (x : List ℚ) : List ℚ :=
  List.zipWith (fun row b => dot row x + b) l.weight l.bias

/-- Modelled from the spec: the hidden portion of `fc_model.Network.forward`
(§4.1) — each hidden layer applies ReLU to its affine output (dropout is a
no-op during inference and is omitted). -/
def Network.hiddenForward (net : Network) (x : List ℚ) : List ℚ :=
  net.hidden_layers.foldl (fun a l => (l.apply a).map relu) x

/-- The raw scores of one example: the output layer's affine map applied to
the hidden activations. -/
def Network.scores (net : Network) (x : List ℚ) : List ℚ :=
  net.output.apply (net.hiddenForward x)

/-- `F.log_softmax(z, dim=1)` on one row: `zᵢ - log (Σⱼ exp zⱼ)`. -/
noncomputable def logSoftmax (z : List ℚ) : List ℝ :=
  z.map fun zi : ℚ => (zi : ℝ) - Real.log (z.map fun zj : ℚ => Real.exp (zj : ℝ)).sum

/-- Modelled from the spec: `fc_model.Network.forward` on a batch —
input `[B, D_in]` → output `[B, D_out]` log-probabilities (§4.1). -/
noncomputable def Network.forward (net : Network) (xs : List (List ℚ)) :
    List (List ℝ) :=
  xs.map fun x => logSoftmax (net.scores x)

/-- A learnable parameter entry (flattened view): its value and the
gradient slot the autodiff engine accumulates into. -/
structure Param where
  value : ℚ
  grad : ℚ
deriving DecidableEq

/-- `optimizer.zero_grad()`: clear every accumulated gradient. -/
def zeroGrad (ps : List Param) : List Param :=
  ps.map fun p => { p with grad := 0 }

/-- `loss.backward()` with the engine's accumulate-by-default contract:
the fresh gradients `g` are summed onto the existing `grad` slots. -/
def backward (g : List ℚ) (ps : List Param) : List Param :=
  List.zipWith (fun p gi => { p with grad := p.grad + gi }) ps g

/-- Modelled from the spec: `optim.SGD(model.parameters(), lr).step()` —
update each parameter via `param -= learning_rate * gradient`, in place
(§4.2 step 6); the optimizer's source is framework code, not in the repo. -/
def sgdStep (lr : ℚ) (ps : List Param) : List Param :=
  ps.map fun p => { p with value := p.value - lr * p.grad }

/-- One iteration of the training loop body, as in the notebook:
`optimizer.zero_grad()`; forward and loss (folded into the gradient
oracle `gradient`, the autodiff engine's output for the current batch's
loss at the current parameter values); `loss.backward()`;
`optimizer.step()`. -/
def trainStep {B : Type} (gradient : List ℚ → B → List ℚ) (lr : ℚ)
    (ps : List Param) (b : B) : List Param :=
  let ps₁ := zeroGrad ps
  let g := gradient (ps₁.map Param.value) b
  sgdStep lr (backward g ps₁)

/-- One epoch of the notebook training loop: start the running-loss
accumulator at 0, then for each batch add `loss.item()` to it and take a
training step; `step` and `lossOf` abstract the framework calls of the
loop body. -/
def epochRun {M B : Type} (step : M → B → M) (lossOf : M → B → ℚ)
    (m₀ : M) (batches : List B) : M × ℚ :=
  batches.foldl (fun p b => (step p.1 b, p.2 + lossOf p.1 b)) (m₀, 0)

/-- The loss reported for one epoch:
`total_loss / len(trainloader)`. -/
def epochAvgLoss {M B : Type} (step : M → B → M) (lossOf : M → B → ℚ)
    (m₀ : M) (batches : List B) : ℚ :=
  (epochRun step lossOf m₀ batches).2 / batches.length

/-- The per-batch losses along the trajectory of models visited in one
epoch: each batch's loss is taken at the model produced by the previous
iterations. -/
def batchLosses {M B : Type} (step : M → B → M) (lossOf : M → B → ℚ) :
    M → List B → List ℚ
  | _, [] => []
  | m, b :: bs => lossOf m b :: batchLosses step lossOf (step m b) bs

/-- The full training loop (`for e in range(epochs): …`): the final model
and the list of reported per-epoch average losses. -/
def trainEpochs {M B : Type} (step : M → B → M) (lossOf : M → B → ℚ) :
    ℕ → M → List B → M × List ℚ
  | 0, m, _ => (m, [])
  | e + 1, m, bs =>
    let p := epochRun step lossOf m bs
    let q := trainEpochs step lossOf e p.1 bs
    (q.1, p.2 / bs.length :: q.2)

/-- The canonical tensor shapes of a well-formed hidden chain starting at
width `nIn` with widths `hs`: `[h, nIn]` for each weight, `[h]` for each
bias. -/
def hiddenShapes : ℕ → List ℕ → List (List ℕ)
  | _, [] => []
  | nIn, h :: hs => [h, nIn] :: [h] :: hiddenShapes h hs

/-- The tensors of a hidden chain, in `state_dict` order. -/
def hiddenTensors (ls : List Linear) : List Tensor :=
  ls.flatMap fun l => [.mat l.weight, .vec l.bias]

/-- The freshly constructed model skeleton with the same architecture as
`m`: what `Network.init` builds from `m`'s stored metadata. -/
def skeletonOf (m : Network) : Network :=
  ⟨m.input_size, m.output_size, buildHidden m.input_size m.hiddenSizes,
    mkLinear (lastSize m.input_size m.hiddenSizes) m.output_size⟩

theorem zeroGrad_map_value (ps : List Param) :
    (zeroGrad ps).map Param.value = ps.map Param.value := by
  simp [zeroGrad]

theorem backward_zeroGrad_map_grad (ps : List Param) (g : List ℚ)
    (h : g.length = ps.length) :
    (backward g (zeroGrad ps)).map Param.grad = g := by
  induction ps generalizing g with
  | nil => simp_all [backward, zeroGrad, List.length_eq_zero]
  | cons p ps ih =>
    cases g with
    | nil => simp at h
    | cons gi g =>
      simp only [zeroGrad, List.map_cons, backward, List.zipWith_cons_cons, zero_add]
      simpa [backward, zeroGrad] using ih g (by simpa using h)

theorem trainStep_value_only {B : Type} (gradient : List ℚ → B → List ℚ)
    (lr : ℚ) (b : B) (ps ps' : List Param)
    (h : ps.map Param.value = ps'.map Param.value) :
    trainStep gradient lr ps b = trainStep gradient lr ps' b := by
  have hzero : zeroGrad ps = zeroGrad ps' := by
    have : ∀ qs : List Param,
        zeroGrad qs = (qs.map Param.value).map fun v => ⟨v, 0⟩ := by
      intro qs; simp [zeroGrad]
    rw [this, this, h]
  simp [trainStep, hzero]

/-- C6: in every iteration of the training loop, the gradients are zeroed
before the backward pass, so the gradient consumed by the optimizer step
is exactly the current batch's gradient, and the whole step is
independent of any gradient left over from previous iterations. -/
theorem step_consumes_fresh_gradient {B : Type}
    (gradient : List ℚ → B → List ℚ) (lr : ℚ) (b : B) (ps : List Param)
    (h : (gradient (ps.map Param.value) b).length = ps.length) :
    (backward (gradient ((zeroGrad ps).map Param.value) b)
        (zeroGrad ps)).map Param.grad = gradient (ps.map Param.value) b ∧
    ∀ ps' : List Param, ps'.map Param.value = ps.map Param.value →
      trainStep gradient lr ps' b = trainStep gradient lr ps b := by
  constructor
  · rw [zeroGrad_map_value]
    exact backward_zeroGrad_map_grad ps _ (by simpa [zeroGrad] using h)
  · intro ps' h'
    exact trainStep_value_only gradient lr b ps' ps h'

theorem step_consumes_fresh_gradient_witness :
    ((fun vs _ => vs : List ℚ → Unit → List ℚ)
        (([⟨1, 5⟩] : List Param).map Param.value) ()).length
      = ([⟨1, 5⟩] : List Param).length ∧
    ((backward ((fun vs _ => vs : List ℚ → Unit → List ℚ)
          ((zeroGrad [⟨1, 5⟩]).map Param.value) ())
        (zeroGrad [⟨1, 5⟩])).map Param.grad
      = (fun vs _ => vs : List ℚ → Unit → List ℚ)
          (([⟨1, 5⟩] : List Param).map Param.value) () ∧
    ∀ ps' : List Param,
      ps'.map Param.value = ([⟨1, 5⟩] : List Param).map Param.value →
      trainStep (fun vs _ => vs) (2 : ℚ) ps' ()
        = trainStep (fun vs _ => vs) (2 : ℚ) [⟨1, 5⟩] ()) :=
  ⟨rfl, step_consumes_fresh_gradient (fun vs _ => vs) 2 () [⟨1, 5⟩] rfl⟩

/-- C5: the stochastic-gradient-descent step updates every parameter to
`value - lr * grad` and changes nothing else (the gradient slots are left
untouched). -/
theorem sgdStep_spec (lr : ℚ) (ps : List Param) :
    (sgdStep lr ps).map Param.value
        = ps.map (fun p => p.value - lr * p.grad) ∧
    (sgdStep lr ps).map Param.grad = ps.map Param.grad := by
  simp [sgdStep]

theorem epochRun_snd_eq {M B : Type} (step : M → B → M) (lossOf : M → B → ℚ)
    (batches : List B) :
    ∀ (m₀ : M) (a : ℚ),
      (batches.foldl (fun p b => (step p.1 b, p.2 + lossOf p.1 b)) (m₀, a)).2
        = a + (batchLosses step lossOf m₀ batches).sum := by
  induction batches with
  | nil => intro m₀ a; simp [batchLosses]
  | cons b bs ih =>
    intro m₀ a
    simp only [List.foldl_cons, batchLosses, List.sum_cons]
    rw [ih (step m₀ b) (a + lossOf m₀ b)]
    ring

/-- C4: each epoch starts its running-loss accumulator at 0, adds every
batch's scalar loss to it (so the accumulator ends as the sum of the
per-batch losses along the visited model trajectory), and every reported
per-epoch loss is that accumulator divided by the number of batches in
the loader. -/
theorem epoch_average_loss {M B : Type} (step : M → B → M)
    (lossOf : M → B → ℚ) (batches : List B) :
    (∀ m₀ : M, (epochRun step lossOf m₀ batches).2
        = (batchLosses step lossOf m₀ batches).sum) ∧
    (∀ m₀ : M, epochAvgLoss step lossOf m₀ batches
        = (batchLosses step lossOf m₀ batches).sum / batches.length) ∧
    (∀ (e : ℕ) (m₀ : M),
      (trainEpochs step lossOf (e + 1) m₀ batches).2
        = (batchLosses step lossOf m₀ batches).sum / batches.length ::
          (trainEpochs step lossOf e
            (epochRun step lossOf m₀ batches).1 batches).2) := by
  refine ⟨fun m₀ => ?_, fun m₀ => ?_, fun e m₀ => ?_⟩
  · simpa using epochRun_snd_eq step lossOf batches m₀ 0
  · rw [epochAvgLoss]
    simpa using congrArg (· / (batches.length : ℚ))
      (by simpa using epochRun_snd_eq step lossOf batches m₀ 0)
  · simp only [trainEpochs]
    rw [show (epochRun step lossOf m₀ batches).2
        = (batchLosses step lossOf m₀ batches).sum from by
      simpa using epochRun_snd_eq step lossOf batches m₀ 0]

theorem sdAux_map_fst_eq (ls₁ : List Linear) :
    ∀ (ls₂ : List Linear) (i : ℕ), ls₁.length = ls₂.length →
      (sdAux i ls₁).map Prod.fst = (sdAux i ls₂).map Prod.fst := by
  induction ls₁ with
  | nil =>
    intro ls₂ i h
    cases ls₂ with
    | nil => rfl
    | cons _ _ => simp at h
  | cons l ls ih =>
    intro ls₂ i h
    cases ls₂ with
    | nil => simp at h
    | cons l₂ ls₂ =>
      simp only [sdAux, List.map_cons]
      rw [ih ls₂ (i + 1) (by simpa using h)]

theorem state_dict_map_fst_eq (n₁ n₂ : Network)
    (h : n₁.hidden_layers.length = n₂.hidden_layers.length) :
    n₁.state_dict.map Prod.fst = n₂.state_dict.map Prod.fst := by
  simp only [Network.state_dict, List.map_append]
  rw [sdAux_map_fst_eq n₁.hidden_layers n₂.hidden_layers 0 h]
  simp

theorem sdAux_map_snd (ls : List Linear) :
    ∀ i : ℕ, (sdAux i ls).map Prod.snd = hiddenTensors ls := by
  induction ls with
  | nil => intro i; rfl
  | cons l ls ih =>
    intro i
    simp only [sdAux, List.map_cons, hiddenTensors, List.flatMap_cons]
    rw [ih (i + 1)]
    rfl

theorem shape_mat_of_WF (l : Linear) (nIn nOut : ℕ) (h : l.WF nIn nOut) :
    Tensor.shape (.mat l.weight) = [nOut, nIn] := by
  obtain ⟨hw, _, hr, _, hout⟩ := h
  cases hweight : l.weight with
  | nil => rw [hweight] at hw; simp [← hw] at hout
  | cons r rs =>
    rw [hweight] at hw hr
    simp only [Tensor.shape, List.headD_cons]
    rw [hw, hr r (by simp)]

theorem sdAux_shapes (ls : List Linear) :
    ∀ (nIn i : ℕ), hiddenWF nIn ls →
      (sdAux i ls).map (fun p => p.2.shape)
        = hiddenShapes nIn (ls.map Linear.out_features) := by
  induction ls with
  | nil => intro nIn i _; rfl
  | cons l ls ih =>
    intro nIn i h
    obtain ⟨hl, hrest⟩ := h
    simp only [sdAux, List.map_cons, hiddenShapes, List.cons.injEq]
    refine ⟨shape_mat_of_WF l nIn l.out_features hl, ?_, ?_⟩
    · simp [Tensor.shape, hl.2.1]
    · exact ih l.out_features (i + 1) hrest

theorem state_dict_shapes (net : Network) (h : net.WF) :
    shapesOf net.state_dict
      = hiddenShapes net.input_size net.hiddenSizes ++
        [[net.output_size, lastSize net.input_size net.hiddenSizes],
         [net.output_size]] := by
  obtain ⟨_, _, hh, ho⟩ := h
  simp only [shapesOf, Network.state_dict, List.map_append]
  rw [sdAux_shapes net.hidden_layers net.input_size 0 hh]
  simp only [Network.hiddenSizes, List.append_cancel_left_eq, List.map_cons,
    List.map_nil, List.cons.injEq, and_true]
  exact ⟨shape_mat_of_WF net.output _ _ ho, by simp [Tensor.shape, ho.2.1]⟩

theorem mkLinear_out_features (nIn nOut : ℕ) :
    (mkLinear nIn nOut).out_features = nOut := by
  simp [mkLinear, Linear.out_features]

theorem mkLinear_WF (nIn nOut : ℕ) (hin : 0 < nIn) (hout : 0 < nOut) :
    (mkLinear nIn nOut).WF nIn nOut := by
  refine ⟨by simp [mkLinear], by simp [mkLinear], ?_, hin, hout⟩
  intro r hr
  rw [List.eq_of_mem_replicate hr]
  simp

theorem buildHidden_out_features (hs : List ℕ) :
    ∀ nIn : ℕ, (buildHidden nIn hs).map Linear.out_features = hs := by
  induction hs with
  | nil => intro nIn; rfl
  | cons h hs ih =>
    intro nIn
    simp only [buildHidden, List.map_cons, mkLinear_out_features,
      List.cons.injEq, true_and]
    exact ih h

theorem buildHidden_length (hs : List ℕ) :
    ∀ nIn : ℕ, (buildHidden nIn hs).length = hs.length := by
  induction hs with
  | nil => intro nIn; rfl
  | cons h hs ih =>
    intro nIn
    simp only [buildHidden, List.length_cons, ih h]

theorem buildHidden_WF (hs : List ℕ) :
    ∀ nIn : ℕ, 0 < nIn → (∀ h ∈ hs, 0 < h) →
      hiddenWF nIn (buildHidden nIn hs) := by
  induction hs with
  | nil => intro nIn _ _; trivial
  | cons h hs ih =>
    intro nIn hin hpos
    refine ⟨?_, ?_⟩
    · rw [mkLinear_out_features]
      exact mkLinear_WF nIn h hin (hpos h (by simp))
    · rw [mkLinear_out_features]
      exact ih h (hpos h (by simp)) fun x hx => hpos x (by simp [hx])

theorem hiddenWF_pos (ls : List Linear) :
    ∀ nIn : ℕ, hiddenWF nIn ls → ∀ l ∈ ls, 0 < l.out_features := by
  induction ls with
  | nil => intro nIn _ l hl; simp at hl
  | cons l₀ ls ih =>
    intro nIn h l hl
    rcases List.mem_cons.mp hl with rfl | hl
    · exact h.1.2.2.2.2
    · exact ih l₀.out_features h.2 l hl

theorem loadHidden_spec (skel : List Linear) :
    ∀ (ls : List Linear) (rest : List Tensor), skel.length = ls.length →
      loadHidden skel (hiddenTensors ls ++ rest) = (ls, rest) := by
  induction skel with
  | nil =>
    intro ls rest h
    cases ls with
    | nil => rfl
    | cons _ _ => simp at h
  | cons s skel ih =>
    intro ls rest h
    cases ls with
    | nil => simp at h
    | cons l ls =>
      have hih := ih ls rest (by simpa using h)
      simp only [hiddenTensors, List.flatMap_cons, List.cons_append,
        List.nil_append, loadHidden] at hih ⊢
      rw [hih]

theorem lastSize_pos (hs : List ℕ) :
    ∀ inS : ℕ, 0 < inS → (∀ h ∈ hs, 0 < h) → 0 < lastSize inS hs := by
  induction hs with
  | nil => intro inS hin _; exact hin
  | cons h hs ih =>
    intro inS _ hpos
    rw [lastSize, List.getLastD_cons]
    exact ih h (hpos h (by simp)) fun x hx => hpos x (by simp [hx])

theorem WF_hiddenSizes_pos (m : Network) (hm : m.WF) :
    ∀ w ∈ m.hiddenSizes, 0 < w := by
  intro w hw
  obtain ⟨l, hl, rfl⟩ := List.mem_map.mp hw
  exact hiddenWF_pos m.hidden_layers m.input_size hm.2.2.1 l hl

theorem skeletonOf_hiddenSizes (m : Network) :
    (skeletonOf m).hiddenSizes = m.hiddenSizes :=
  buildHidden_out_features m.hiddenSizes m.input_size

theorem skeletonOf_WF (m : Network) (hm : m.WF) : (skeletonOf m).WF := by
  have hpos := WF_hiddenSizes_pos m hm
  refine ⟨hm.1, hm.2.1, ?_, ?_⟩
  · exact buildHidden_WF m.hiddenSizes m.input_size hm.1 hpos
  · rw [skeletonOf_hiddenSizes]
    show (mkLinear (lastSize m.input_size m.hiddenSizes) m.output_size).WF
      (lastSize m.input_size m.hiddenSizes) m.output_size
    exact mkLinear_WF _ _ (lastSize_pos m.hiddenSizes m.input_size hm.1 hpos)
      hm.2.1

theorem map_toNat_map_ofNat (hs : List ℕ) :
    (hs.map Int.ofNat).map Int.toNat = hs := by
  induction hs with
  | nil => rfl
  | cons a l ih =>
    simp only [List.map_cons, List.cons.injEq]
    exact ⟨rfl, ih⟩

theorem init_of_WF (m : Network) (hm : m.WF) :
    Network.init (m.input_size : Int) (m.output_size : Int)
      (m.hiddenSizes.map Int.ofNat) = .ok (skeletonOf m) := by
  have hpos := WF_hiddenSizes_pos m hm
  rw [Network.init, if_pos]
  · simp only [map_toNat_map_ofNat, Int.toNat_natCast, skeletonOf]
  · refine ⟨by exact_mod_cast hm.1, by exact_mod_cast hm.2.1, ?_⟩
    intro h hh
    simp only [List.mem_map] at hh
    obtain ⟨w, hw, rfl⟩ := hh
    exact Int.natCast_pos.mpr (hpos w hw)


theorem state_dict_map_snd (m : Network) :
    m.state_dict.map Prod.snd
      = hiddenTensors m.hidden_layers ++
        [.mat m.output.weight, .vec m.output.bias] := by
  simp only [Network.state_dict, List.map_append, sdAux_map_snd]
  rfl

theorem skeletonOf_hidden_length (m : Network) :
    (skeletonOf m).hidden_layers.length = m.hidden_layers.length := by
  show (buildHidden m.input_size m.hiddenSizes).length = _
  rw [buildHidden_length]
  simp [Network.hiddenSizes]

theorem withTensors_roundtrip (skel m : Network)
    (h : skel.hidden_layers.length = m.hidden_layers.length) :
    skel.withTensors (m.state_dict.map Prod.snd)
      = ⟨skel.input_size, skel.output_size, m.hidden_layers, m.output⟩ := by
  rw [Network.withTensors, state_dict_map_snd,
    loadHidden_spec skel.hidden_layers m.hidden_layers _ h]

theorem skeleton_load_state_dict (m : Network) (hm : m.WF) :
    (skeletonOf m).load_state_dict m.state_dict = .ok m := by
  rw [Network.load_state_dict, if_pos]
  · rw [withTensors_roundtrip (skeletonOf m) m (skeletonOf_hidden_length m)]
    rfl
  · constructor
    · exact state_dict_map_fst_eq m (skeletonOf m)
        (skeletonOf_hidden_length m).symm
    · rw [state_dict_shapes m hm,
        state_dict_shapes (skeletonOf m) (skeletonOf_WF m hm),
        skeletonOf_hiddenSizes]
      rfl

theorem load_checkpoint_save (m : Network) (hm : m.WF) :
    load_checkpoint (checkpointOf m) = .ok m := by
  have h1 : load_checkpoint (checkpointOf m)
      = (Network.init (m.input_size : Int) (m.output_size : Int)
          (m.hiddenSizes.map Int.ofNat)).bind
        (fun model => model.load_state_dict m.state_dict) := rfl
  rw [h1, init_of_WF m hm]
  show (skeletonOf m).load_state_dict m.state_dict = .ok m
  exact skeleton_load_state_dict m hm

theorem Linear.apply_length (l : Linear) (nIn nOut : ℕ) (h : l.WF nIn nOut)
    (x : List ℚ) : (l.apply x).length = nOut := by
  simp [Linear.apply, h.1, h.2.1]

theorem foldl_relu_length (ls : List Linear) :
    ∀ (nIn : ℕ) (x : List ℚ), hiddenWF nIn ls → x.length = nIn →
      (ls.foldl (fun a l => (l.apply a).map relu) x).length
        = lastSize nIn (ls.map Linear.out_features) := by
  induction ls with
  | nil => intro nIn x _ hx; simpa [lastSize] using hx
  | cons l ls ih =>
    intro nIn x hwf hx
    simp only [List.foldl_cons, List.map_cons, lastSize, List.getLastD_cons]
    rw [← lastSize]
    exact ih l.out_features _ hwf.2
      (by rw [List.length_map]; exact l.apply_length nIn l.out_features hwf.1 x)

theorem scores_length (net : Network) (hm : net.WF) (x : List ℚ) :
    (net.scores x).length = net.output_size :=
  net.output.apply_length _ _ hm.2.2.2 _

theorem hiddenForward_length (net : Network) (hm : net.WF) (x : List ℚ)
    (hx : x.length = net.input_size) :
    (net.hiddenForward x).length = lastSize net.input_size net.hiddenSizes :=
  foldl_relu_length net.hidden_layers net.input_size x hm.2.2.1 hx

theorem sum_exp_logSoftmax (z : List ℚ) (hz : z ≠ []) :
    ((logSoftmax z).map Real.exp).sum = 1 := by
  have hmapne : (z.map fun zj : ℚ => Real.exp (zj : ℝ)) ≠ [] := by
    intro hEq
    exact hz (List.map_eq_nil_iff.mp hEq)
  have hS : 0 < (z.map fun zj : ℚ => Real.exp (zj : ℝ)).sum := by
    refine List.sum_pos _ (fun x hx => ?_) hmapne
    obtain ⟨a, _, rfl⟩ := List.mem_map.mp hx
    exact Real.exp_pos _
  rw [logSoftmax, List.map_map]
  have hfun : (Real.exp ∘ fun zi : ℚ =>
        (zi : ℝ) - Real.log (z.map fun zj : ℚ => Real.exp (zj : ℝ)).sum)
      = fun zi : ℚ => Real.exp (zi : ℝ) *
          ((z.map fun zj : ℚ => Real.exp (zj : ℝ)).sum)⁻¹ := by
    funext zi
    simp only [Function.comp]
    rw [Real.exp_sub, Real.exp_log hS, div_eq_mul_inv]
  rw [hfun, List.sum_map_mul_right, mul_inv_cancel₀ hS.ne']

theorem logSoftmax_length (z : List ℚ) : (logSoftmax z).length = z.length := by
  simp [logSoftmax]

/-- C3: for every valid model and every batch of shape `[B, D_in]`, the
forward pass yields `B` output rows, each of length `D_out`, and
exponentiating each output row yields values that sum to exactly 1 (the
final layer applies log-softmax along the class dimension). -/
theorem forward_shape_and_normalization (net : Network) (hm : net.WF)
    (xs : List (List ℚ)) (hx : ∀ r ∈ xs, r.length = net.input_size) :
    (net.forward xs).length = xs.length ∧
    ∀ out ∈ net.forward xs, out.length = net.output_size ∧
      (out.map Real.exp).sum = 1 := by
  refine ⟨by simp [Network.forward], ?_⟩
  intro out hout
  rw [Network.forward] at hout
  obtain ⟨x, hxmem, rfl⟩ := List.mem_map.mp hout
  constructor
  · rw [logSoftmax_length]
    exact scores_length net hm x
  · refine sum_exp_logSoftmax _ fun hnil => ?_
    have hlen := scores_length net hm x
    rw [hnil] at hlen
    exact absurd hlen.symm (Nat.pos_iff_ne_zero.mp hm.2.1)

theorem forward_shape_and_normalization_witness :
    Network.WF ⟨1, 1, [], ⟨[[2]], [3]⟩⟩ ∧
    (∀ r ∈ [[(5 : ℚ)]], r.length = Network.input_size ⟨1, 1, [], ⟨[[2]], [3]⟩⟩) ∧
    ((Network.forward ⟨1, 1, [], ⟨[[2]], [3]⟩⟩ [[(5 : ℚ)]]).length
        = ([[(5 : ℚ)]] : List (List ℚ)).length ∧
      ∀ out ∈ Network.forward ⟨1, 1, [], ⟨[[2]], [3]⟩⟩ [[(5 : ℚ)]],
        out.length = Network.output_size ⟨1, 1, [], ⟨[[2]], [3]⟩⟩ ∧
        (out.map Real.exp).sum = 1) := by
  have hw : Network.WF ⟨1, 1, [], ⟨[[2]], [3]⟩⟩ := by
    refine ⟨Nat.one_pos, Nat.one_pos, trivial, rfl, rfl, ?_, Nat.one_pos,
      Nat.one_pos⟩
    intro r hr
    rw [List.mem_singleton.mp hr]
    rfl
  have hx : ∀ r ∈ [[(5 : ℚ)]],
      r.length = Network.input_size ⟨1, 1, [], ⟨[[2]], [3]⟩⟩ := by
    intro r hr
    rw [List.mem_singleton.mp hr]
    rfl
  exact ⟨hw, hx, forward_shape_and_normalization _ hw _ hx⟩

/-- C1: for every valid model, loading the checkpoint saved from it
produces a model whose forward output on any input batch is identical to
the original model's forward output (in exact arithmetic the round trip
reproduces the model itself). -/
theorem save_load_roundtrip (m : Network) (hm : m.WF) :
    ∃ m₂, load_checkpoint (checkpointOf m) = .ok m₂ ∧
      ∀ xs : List (List ℚ), m₂.forward xs = m.forward xs :=
  ⟨m, load_checkpoint_save m hm, fun _ => rfl⟩

theorem save_load_roundtrip_witness :
    Network.WF ⟨1, 1, [], ⟨[[2]], [3]⟩⟩ ∧
    ∃ m₂, load_checkpoint (checkpointOf ⟨1, 1, [], ⟨[[2]], [3]⟩⟩) = .ok m₂ ∧
      ∀ xs : List (List ℚ),
        m₂.forward xs = Network.forward ⟨1, 1, [], ⟨[[2]], [3]⟩⟩ xs := by
  have hw : Network.WF ⟨1, 1, [], ⟨[[2]], [3]⟩⟩ := by
    refine ⟨Nat.one_pos, Nat.one_pos, trivial, rfl, rfl, ?_, Nat.one_pos,
      Nat.one_pos⟩
    intro r hr
    rw [List.mem_singleton.mp hr]
    rfl
  exact ⟨hw, save_load_roundtrip _ hw⟩

theorem initNet_WF (inS outS : ℕ) (hs : List ℕ) (hin : 0 < inS)
    (hout : 0 < outS) (hpos : ∀ h ∈ hs, 0 < h) :
    Network.WF ⟨inS, outS, buildHidden inS hs, mkLinear (lastSize inS hs) outS⟩ := by
  refine ⟨hin, hout, buildHidden_WF hs inS hin hpos, ?_⟩
  have hsizes : Network.hiddenSizes
      ⟨inS, outS, buildHidden inS hs, mkLinear (lastSize inS hs) outS⟩ = hs :=
    buildHidden_out_features hs inS
  rw [show Network.output
      ⟨inS, outS, buildHidden inS hs, mkLinear (lastSize inS hs) outS⟩
      = mkLinear (lastSize inS hs) outS from rfl, hsizes]
  exact mkLinear_WF _ _ (lastSize_pos hs inS hin hpos) hout

/-- C7: every checkpoint written by save has exactly the four entries
`input_size` (an integer), `output_size` (an integer), `hidden_layers`
(an ordered list of integers) and `state_dict` (a mapping from qualified
parameter names to contents), and this metadata suffices for load to
reconstruct the identical topology without external input. -/
theorem checkpoint_four_fields (m : Network) (hm : m.WF) :
    (checkpointOf m).map Prod.fst
        = ["input_size", "output_size", "hidden_layers", "state_dict"] ∧
    (checkpointOf m).lookup "input_size" = some (.int m.input_size) ∧
    (checkpointOf m).lookup "output_size" = some (.int m.output_size) ∧
    (checkpointOf m).lookup "hidden_layers" = some (.ints m.hiddenSizes) ∧
    (checkpointOf m).lookup "state_dict" = some (.sd m.state_dict) ∧
    ∃ m₂, load_checkpoint (checkpointOf m) = .ok m₂ ∧
      m₂.input_size = m.input_size ∧ m₂.output_size = m.output_size ∧
      m₂.hiddenSizes = m.hiddenSizes :=
  ⟨rfl, rfl, rfl, rfl, rfl, m, load_checkpoint_save m hm, rfl, rfl, rfl⟩

theorem checkpoint_four_fields_witness :
    Network.WF ⟨2, 1, [], ⟨[[1, 2]], [3]⟩⟩ ∧
    ((checkpointOf ⟨2, 1, [], ⟨[[1, 2]], [3]⟩⟩).map Prod.fst
        = ["input_size", "output_size", "hidden_layers", "state_dict"] ∧
      (checkpointOf ⟨2, 1, [], ⟨[[1, 2]], [3]⟩⟩).lookup "input_size"
        = some (.int (Network.input_size ⟨2, 1, [], ⟨[[1, 2]], [3]⟩⟩)) ∧
      (checkpointOf ⟨2, 1, [], ⟨[[1, 2]], [3]⟩⟩).lookup "output_size"
        = some (.int (Network.output_size ⟨2, 1, [], ⟨[[1, 2]], [3]⟩⟩)) ∧
      (checkpointOf ⟨2, 1, [], ⟨[[1, 2]], [3]⟩⟩).lookup "hidden_layers"
        = some (.ints (Network.hiddenSizes ⟨2, 1, [], ⟨[[1, 2]], [3]⟩⟩)) ∧
      (checkpointOf ⟨2, 1, [], ⟨[[1, 2]], [3]⟩⟩).lookup "state_dict"
        = some (.sd (Network.state_dict ⟨2, 1, [], ⟨[[1, 2]], [3]⟩⟩)) ∧
      ∃ m₂, load_checkpoint (checkpointOf ⟨2, 1, [], ⟨[[1, 2]], [3]⟩⟩)
          = .ok m₂ ∧
        m₂.input_size = Network.input_size ⟨2, 1, [], ⟨[[1, 2]], [3]⟩⟩ ∧
        m₂.output_size = Network.output_size ⟨2, 1, [], ⟨[[1, 2]], [3]⟩⟩ ∧
        m₂.hiddenSizes = Network.hiddenSizes ⟨2, 1, [], ⟨[[1, 2]], [3]⟩⟩) := by
  have hw : Network.WF ⟨2, 1, [], ⟨[[1, 2]], [3]⟩⟩ := by
    refine ⟨by norm_num, Nat.one_pos, trivial, rfl, rfl, ?_, by decide,
      Nat.one_pos⟩
    intro r hr
    rw [List.mem_singleton.mp hr]
    rfl
  exact ⟨hw, checkpoint_four_fields _ hw⟩

/-- C10: the checkpoint's `hidden_layers` metadata is computed from the
live model's actual layer widths, the stored tensor shapes match the
architecture implied by the stored sizes, and loading a checkpoint that
save produced never raises the architecture-mismatch error. -/
theorem checkpoint_self_consistent (m : Network) (hm : m.WF) :
    (checkpointOf m).lookup "hidden_layers" = some (.ints m.hiddenSizes) ∧
    shapesOf m.state_dict
      = hiddenShapes m.input_size m.hiddenSizes ++
        [[m.output_size, lastSize m.input_size m.hiddenSizes],
         [m.output_size]] ∧
    load_checkpoint (checkpointOf m) ≠ .error .ArchitectureMismatch := by
  refine ⟨rfl, state_dict_shapes m hm, ?_⟩
  rw [load_checkpoint_save m hm]
  simp

theorem checkpoint_self_consistent_witness :
    Network.WF ⟨2, 1, [], ⟨[[1, 2]], [3]⟩⟩ ∧
    ((checkpointOf ⟨2, 1, [], ⟨[[1, 2]], [3]⟩⟩).lookup "hidden_layers"
        = some (.ints (Network.hiddenSizes ⟨2, 1, [], ⟨[[1, 2]], [3]⟩⟩)) ∧
      shapesOf (Network.state_dict ⟨2, 1, [], ⟨[[1, 2]], [3]⟩⟩)
        = hiddenShapes (Network.input_size ⟨2, 1, [], ⟨[[1, 2]], [3]⟩⟩)
            (Network.hiddenSizes ⟨2, 1, [], ⟨[[1, 2]], [3]⟩⟩) ++
          [[Network.output_size ⟨2, 1, [], ⟨[[1, 2]], [3]⟩⟩,
            lastSize (Network.input_size ⟨2, 1, [], ⟨[[1, 2]], [3]⟩⟩)
              (Network.hiddenSizes ⟨2, 1, [], ⟨[[1, 2]], [3]⟩⟩)],
           [Network.output_size ⟨2, 1, [], ⟨[[1, 2]], [3]⟩⟩]] ∧
      load_checkpoint (checkpointOf ⟨2, 1, [], ⟨[[1, 2]], [3]⟩⟩)
        ≠ .error .ArchitectureMismatch) := by
  have hw : Network.WF ⟨2, 1, [], ⟨[[1, 2]], [3]⟩⟩ := by
    refine ⟨by norm_num, Nat.one_pos, trivial, rfl, rfl, ?_, by decide,
      Nat.one_pos⟩
    intro r hr
    rw [List.mem_singleton.mp hr]
    rfl
  exact ⟨hw, checkpoint_self_consistent _ hw⟩

/-- C2: saving a `784 → [512, 256, 128] → 10` model and loading its state
dict directly into a freshly constructed `[400, 200, 100]` skeleton (the
notebook's `model.load_state_dict(state_dict)` cell that skips the stored
metadata) fails with `ArchitectureMismatch`, while the documented
`load_checkpoint` path, which first reads the stored metadata, succeeds
with hidden sizes `[512, 256, 128]`. -/
theorem mismatched_skeleton_load_fails :
    ∃ n512 n400 : Network,
      Network.init 784 10 [512, 256, 128] = .ok n512 ∧
      Network.init 784 10 [400, 200, 100] = .ok n400 ∧
      (∀ sd, (checkpointOf n512).lookup "state_dict" = some (.sd sd) →
        n400.load_state_dict sd = .error .ArchitectureMismatch) ∧
      ∃ m₂, load_checkpoint (checkpointOf n512) = .ok m₂ ∧
        m₂.hiddenSizes = [512, 256, 128] := by
  refine ⟨⟨784, 10, buildHidden 784 [512, 256, 128], mkLinear 128 10⟩,
    ⟨784, 10, buildHidden 784 [400, 200, 100], mkLinear 100 10⟩,
    rfl, rfl, ?_, ?_⟩
  · intro sd hsd
    have hw512 : Network.WF
        ⟨784, 10, buildHidden 784 [512, 256, 128], mkLinear 128 10⟩ :=
      initNet_WF 784 10 [512, 256, 128] (by norm_num) (by norm_num)
        (by decide)
    have hw400 : Network.WF
        ⟨784, 10, buildHidden 784 [400, 200, 100], mkLinear 100 10⟩ :=
      initNet_WF 784 10 [400, 200, 100] (by norm_num) (by norm_num)
        (by decide)
    have hsd' : sd = Network.state_dict
        ⟨784, 10, buildHidden 784 [512, 256, 128], mkLinear 128 10⟩ :=
      (CValue.sd.inj (Option.some.inj hsd)).symm
    subst hsd'
    rw [Network.load_state_dict, if_neg]
    intro hcond
    have hshapes := hcond.2
    rw [shapesOf, shapesOf] at hshapes
    rw [show (Network.state_dict
          ⟨784, 10, buildHidden 784 [512, 256, 128], mkLinear 128 10⟩).map
            (fun p => Tensor.shape p.2)
        = shapesOf (Network.state_dict
          ⟨784, 10, buildHidden 784 [512, 256, 128], mkLinear 128 10⟩)
      from rfl] at hshapes
    rw [show (Network.state_dict
          ⟨784, 10, buildHidden 784 [400, 200, 100], mkLinear 100 10⟩).map
            (fun p => Tensor.shape p.2)
        = shapesOf (Network.state_dict
          ⟨784, 10, buildHidden 784 [400, 200, 100], mkLinear 100 10⟩)
      from rfl] at hshapes
    rw [state_dict_shapes _ hw512, state_dict_shapes _ hw400] at hshapes
    rw [show Network.hiddenSizes
          ⟨784, 10, buildHidden 784 [512, 256, 128], mkLinear 128 10⟩
        = [512, 256, 128] from buildHidden_out_features _ 784] at hshapes
    rw [show Network.hiddenSizes
          ⟨784, 10, buildHidden 784 [400, 200, 100], mkLinear 100 10⟩
        = [400, 200, 100] from buildHidden_out_features _ 784] at hshapes
    exact absurd hshapes (by decide)
  · have hw512 : Network.WF
        ⟨784, 10, buildHidden 784 [512, 256, 128], mkLinear 128 10⟩ :=
      initNet_WF 784 10 [512, 256, 128] (by norm_num) (by norm_num)
        (by decide)
    exact ⟨_, load_checkpoint_save _ hw512,
      buildHidden_out_features [512, 256, 128] 784⟩

/-- C8: constructing a model with an empty hidden-layer list succeeds and
yields a single affine map from input to output, while any non-positive
dimension (input, output, or hidden width) fails with
`InvalidArchitecture`. -/
theorem init_architecture_validation :
    (∀ inS outS : Int, 0 < inS → 0 < outS →
      Network.init inS outS []
          = .ok ⟨inS.toNat, outS.toNat, [], mkLinear inS.toNat outS.toNat⟩ ∧
        (mkLinear inS.toNat outS.toNat).WF inS.toNat outS.toNat) ∧
    (∀ (inS outS : Int) (hidden : List Int),
      (inS ≤ 0 ∨ outS ≤ 0 ∨ ∃ h ∈ hidden, h ≤ 0) →
      Network.init inS outS hidden = .error .InvalidArchitecture) := by
  constructor
  · intro inS outS hin hout
    constructor
    · rw [Network.init, if_pos ⟨hin, hout, by simp⟩]
      rfl
    · exact mkLinear_WF _ _ (by omega) (by omega)
  · intro inS outS hidden h
    rw [Network.init, if_neg]
    intro hcond
    rcases h with h | h | ⟨x, hx, hle⟩
    · exact absurd hcond.1 (not_lt.mpr h)
    · exact absurd hcond.2.1 (not_lt.mpr h)
    · exact absurd (hcond.2.2 x hx) (not_lt.mpr hle)

theorem init_architecture_validation_witness :
    ((0 : Int) < 2 ∧ (0 : Int) < 3 ∧
      (Network.init 2 3 [] = .ok ⟨2, 3, [], mkLinear 2 3⟩ ∧
        (mkLinear 2 3).WF 2 3)) ∧
    (((-1 : Int) ≤ 0 ∨ (5 : Int) ≤ 0 ∨ ∃ h ∈ ([] : List Int), h ≤ 0) ∧
      Network.init (-1) 5 [] = .error .InvalidArchitecture) :=
  ⟨⟨by norm_num, by norm_num,
      init_architecture_validation.1 2 3 (by norm_num) (by norm_num)⟩,
    ⟨Or.inl (by norm_num),
      init_architecture_validation.2 (-1) 5 [] (Or.inl (by norm_num))⟩⟩
